import Mathlib

/-!
Verification of the Crypto_Trading signal/memory/portfolio core.

Shallow embedding of the Python sources in `src/backend`:
* `agents/market_analyzer.py` — `MarketAnalyzer.generate_trading_signals`,
  `MarketAnalyzer.calculate_rsi`;
* `agents/hedge_fund.py` — `HedgeFundAgent.calculate_trade_size`,
  `HedgeFundAgent.update_portfolio`, `HedgeFundAgent.calculate_total_value`;
* `cognition/memory.py` — `MemorySystem` (`add`, `_calculate_importance`,
  `_consolidate_memories`, `_merge_memory_data`, `_update_metrics`).

Python floats are modelled as exact rationals (`ℚ`); where float special
values (NaN, +inf) are observable — the pandas RSI pipeline — they are
modelled explicitly by the inductive type `RVal`.
-/

/-! ## Signal engine (`MarketAnalyzer.generate_trading_signals`)

The Python function receives three dicts and reads the keys
`rsi`, `macd` (technical), `value_at_risk` (risk) and `depth_2_percent`
(liquidity) with `dict.get(key, default)`; a present key is `some`,
an absent one is `none`. -/

structure TechInputs where
  rsi : Option ℚ
  macd : Option ℚ

structure RiskInputs where
  value_at_risk : Option ℚ

structure LiquidityInputs where
  depth_2_percent : Option ℚ

structure TradingSignals where
  action : String
  confidence : ℚ
  signal_strength : ℚ
  risk_score : ℚ
  liquidity_score : ℚ

/-- Embedding of `MarketAnalyzer.generate_trading_signals`
(`market_analyzer.py` lines 134–188).  The running accumulation of
`signal_strength` (`+= 0.4`, `-= 0.4`, …) is written as successive `let`s.
The `try/except` wrapper cannot fire: every operation in the body is total
arithmetic over numbers. -/
def generate_trading_signals (technical : TechInputs) (risk : RiskInputs)
    (liquidity : LiquidityInputs) : TradingSignals :=
  let s0 : ℚ := 0
  -- Technical factors (40% weight)
  let s1 : ℚ :=
    if technical.rsi.getD 50 < 30 then s0 + 4/10
    else if technical.rsi.getD 50 > 70 then s0 - 4/10
    else s0
  let s2 : ℚ := if technical.macd.getD 0 > 0 then s1 + 2/10 else s1 - 2/10
  -- Risk factors (30% weight)
  let risk_score : ℚ := 3/10 * (1 - min 1 (risk.value_at_risk.getD 0 / (1/10)))
  let s3 : ℚ := s2 + risk_score
  -- Liquidity factors (30% weight)
  let liquidity_score : ℚ := 3/10 * min 1 (liquidity.depth_2_percent.getD 0 / 100000)
  let signal_strength : ℚ := s3 + liquidity_score
  let action : String :=
    if signal_strength > 3/10 then "BUY"
    else if signal_strength < -(3/10) then "SELL"
    else "HOLD"
  { action := action
    confidence := |signal_strength|
    signal_strength := signal_strength
    risk_score := risk_score
    liquidity_score := liquidity_score }

/-! ## Position sizing (`HedgeFundAgent.calculate_trade_size`) -/

structure Portfolio where
  cash : ℚ
  positions : List (String × ℚ)
  total_value : ℚ

/-- The only key `calculate_trade_size` reads from its `market_data` dict. -/
structure MarketData where
  liquidity : Option ℚ

/-- Embedding of `HedgeFundAgent.calculate_trade_size`
(`hedge_fund.py` lines 158–181).  The `token` argument is unused by the
source body and kept for signature fidelity. -/
def calculate_trade_size (_token : String) (confidence : ℚ)
    (market_data : MarketData) (portfolio : Portfolio) : ℚ :=
  -- Base position size (% of portfolio): 20% max position
  let max_position : ℚ := portfolio.total_value * (2/10)
  -- Scale by confidence
  let position_size : ℚ := max_position * confidence
  -- Scale by liquidity: limit to 10% of available liquidity
  let liquidity : ℚ := market_data.liquidity.getD 0
  let position_size : ℚ :=
    if liquidity > 0 then min position_size (liquidity * (1/10)) else position_size
  -- Ensure we have enough cash for buys
  if position_size > portfolio.cash then portfolio.cash else position_size

/-! ## Claim theorems for the signal engine and sizing -/

/-- Behaviour of the BUY/SELL/HOLD threshold chain: an abstract statement
about the `if` cascade that `generate_trading_signals` uses to pick the
action from the accumulated signal strength. -/
lemma action_threshold_spec (S : ℚ) (A : String)
    (hA : A = if S > 3/10 then "BUY" else if S < -(3/10) then "SELL" else "HOLD") :
    (S > 3/10 ↔ A = "BUY") ∧ (S < -(3/10) ↔ A = "SELL") ∧
    (S = 3/10 ∨ S = -(3/10) → A = "HOLD") ∧
    (¬ S > 3/10 → ¬ S < -(3/10) → A = "HOLD") := by
  by_cases h1 : S > 3/10
  · rw [if_pos h1] at hA
    subst hA
    refine ⟨⟨fun _ => rfl, fun _ => h1⟩,
      ⟨fun h2 => absurd h1 (by linarith), fun hs => absurd hs (by decide)⟩,
      fun hc => ?_, fun hn _ => absurd h1 hn⟩
    rcases hc with he | he <;> rw [he] at h1 <;> norm_num at h1
  · rw [if_neg h1] at hA
    by_cases h2 : S < -(3/10)
    · rw [if_pos h2] at hA
      subst hA
      exact ⟨⟨fun hx => absurd hx h1, fun hs => absurd hs (by decide)⟩,
        ⟨fun _ => rfl, fun _ => h2⟩,
        fun hc => absurd h2 (by rcases hc with he | he <;> rw [he] <;> norm_num),
        fun _ hn => absurd h2 hn⟩
    · rw [if_neg h2] at hA
      subst hA
      exact ⟨⟨fun hx => absurd hx h1, fun hs => absurd hs (by decide)⟩,
        ⟨fun hx => absurd hx h2, fun hs => absurd hs (by decide)⟩,
        fun _ => rfl, fun _ _ => rfl⟩

/-- C1: for every technical/risk/liquidity input mapping, the signal
returned by `generate_trading_signals` satisfies `signal_strength > 0.3`
iff `action = "BUY"`, `signal_strength < -0.3` iff `action = "SELL"`,
otherwise (including exactly at ±0.3) `action = "HOLD"`, and
`confidence = |signal_strength|`. -/
theorem C1_signal_threshold_iff (t : TechInputs) (r : RiskInputs) (l : LiquidityInputs) :
    ((generate_trading_signals t r l).signal_strength > 3/10 ↔
      (generate_trading_signals t r l).action = "BUY") ∧
    ((generate_trading_signals t r l).signal_strength < -(3/10) ↔
      (generate_trading_signals t r l).action = "SELL") ∧
    ((generate_trading_signals t r l).signal_strength = 3/10 ∨
      (generate_trading_signals t r l).signal_strength = -(3/10) →
      (generate_trading_signals t r l).action = "HOLD") ∧
    (¬ (generate_trading_signals t r l).signal_strength > 3/10 →
      ¬ (generate_trading_signals t r l).signal_strength < -(3/10) →
      (generate_trading_signals t r l).action = "HOLD") ∧
    (generate_trading_signals t r l).confidence =
      |(generate_trading_signals t r l).signal_strength| := by
  obtain ⟨p1, p2, p3, p4⟩ :=
    action_threshold_spec (generate_trading_signals t r l).signal_strength
      (generate_trading_signals t r l).action rfl
  exact ⟨p1, p2, p3, p4, rfl⟩

/-- C1 witness: a concrete input whose signal strength is exactly 0.3
(rsi 20 ⇒ +0.4, macd −1 ⇒ −0.2, VaR 0.1 ⇒ +0, depth 100000/3 ⇒ +0.1)
is classified HOLD, via `C1_signal_threshold_iff`. -/
theorem C1_signal_threshold_iff_witness :
    (generate_trading_signals ⟨some 20, some (-1)⟩ ⟨some (1/10)⟩
      ⟨some (100000/3)⟩).action = "HOLD" :=
  (C1_signal_threshold_iff ⟨some 20, some (-1)⟩ ⟨some (1/10)⟩
      ⟨some (100000/3)⟩).2.2.1
    (Or.inl (by norm_num [generate_trading_signals, min_def]))

/-- C4 counterexample: with rsi 20 (< 30), macd 1 (> 0), value_at_risk 0 and
depth_2_percent 100000, the produced confidence is 6/5, which exceeds 1 —
so confidence does not lie in [0,1] for every input. -/
theorem C4_confidence_counterexample :
    (generate_trading_signals ⟨some 20, some 1⟩ ⟨some 0⟩ ⟨some 100000⟩).confidence = 6/5 ∧
    ¬ (generate_trading_signals ⟨some 20, some 1⟩ ⟨some 0⟩ ⟨some 100000⟩).confidence ≤ 1 := by
  constructor <;> norm_num [generate_trading_signals, min_def, abs_of_nonneg]

/-- C4 amended: confidence is always nonnegative, and bounded by 6/5
(not by 1) whenever the `value_at_risk` and `depth_2_percent` inputs are
nonnegative; a negative `value_at_risk` can push it above any bound. -/
theorem C4_confidence_bounds (t : TechInputs) (r : RiskInputs) (l : LiquidityInputs) :
    0 ≤ (generate_trading_signals t r l).confidence ∧
    (0 ≤ r.value_at_risk.getD 0 → 0 ≤ l.depth_2_percent.getD 0 →
      (generate_trading_signals t r l).confidence ≤ 6/5) := by
  unfold generate_trading_signals
  dsimp only
  refine ⟨abs_nonneg _, fun hv hd => ?_⟩
  rw [abs_le]
  have hrisk₁ : 3/10 * (1 - min 1 (r.value_at_risk.getD 0 / (1/10))) ≤ 3/10 := by
    have : 0 ≤ min 1 (r.value_at_risk.getD 0 / (1/10)) := by
      refine le_min (by norm_num) (by positivity)
    nlinarith
  have hrisk₀ : 0 ≤ 3/10 * (1 - min 1 (r.value_at_risk.getD 0 / (1/10))) := by
    have : min 1 (r.value_at_risk.getD 0 / (1/10)) ≤ 1 := min_le_left _ _
    nlinarith
  have hliq₁ : 3/10 * min 1 (l.depth_2_percent.getD 0 / 100000) ≤ 3/10 := by
    have : min 1 (l.depth_2_percent.getD 0 / 100000) ≤ 1 := min_le_left _ _
    nlinarith
  have hliq₀ : 0 ≤ 3/10 * min 1 (l.depth_2_percent.getD 0 / 100000) := by
    have : 0 ≤ min 1 (l.depth_2_percent.getD 0 / 100000) := by
      refine le_min (by norm_num) (by positivity)
    nlinarith
  split_ifs <;> constructor <;> linarith

/-- C4 amended witness: at rsi 20, macd 1, VaR 0, depth 100000 the
hypotheses hold and the confidence (6/5) is within [0, 6/5]. -/
theorem C4_confidence_bounds_witness :
    0 ≤ (generate_trading_signals ⟨some 20, some 1⟩ ⟨some 0⟩ ⟨some 100000⟩).confidence ∧
    (generate_trading_signals ⟨some 20, some 1⟩ ⟨some 0⟩ ⟨some 100000⟩).confidence ≤ 6/5 :=
  ⟨(C4_confidence_bounds ⟨some 20, some 1⟩ ⟨some 0⟩ ⟨some 100000⟩).1,
   (C4_confidence_bounds ⟨some 20, some 1⟩ ⟨some 0⟩ ⟨some 100000⟩).2
     (by norm_num) (by norm_num)⟩

/-- C2 counterexample: `generate_trading_signals` itself can produce a
confidence of 6/5 > 1; feeding that confidence to `calculate_trade_size`
with total_value 1000, cash 1000 and no liquidity key yields 240, which
exceeds 0.2 · total_value = 200 — the claimed bound fails. -/
theorem C2_trade_size_counterexample :
    calculate_trade_size "TOK"
      (generate_trading_signals ⟨some 20, some 1⟩ ⟨some 0⟩ ⟨some 100000⟩).confidence
      ⟨none⟩ ⟨1000, [], 1000⟩ = 240 ∧
    ¬ calculate_trade_size "TOK"
      (generate_trading_signals ⟨some 20, some 1⟩ ⟨some 0⟩ ⟨some 100000⟩).confidence
      ⟨none⟩ ⟨1000, [], 1000⟩ ≤ 2/10 * 1000 := by
  have hconf : (generate_trading_signals ⟨some 20, some 1⟩ ⟨some 0⟩
      ⟨some 100000⟩).confidence = 6/5 := by
    norm_num [generate_trading_signals, min_def, abs_of_nonneg]
  rw [hconf]
  constructor <;> norm_num [calculate_trade_size, min_def]

/-- C2 amended: whenever the signal confidence lies in [0,1] and the
portfolio has nonnegative total value and cash, `calculate_trade_size`
returns a value ≤ 0.2 · total_value, ≤ 0.1 · liquidity when the liquidity
field is positive, ≤ cash, ≥ 0, and exactly 0 when cash = 0. -/
theorem C2_trade_size_bounds (token : String) (confidence : ℚ)
    (md : MarketData) (p : Portfolio)
    (hc0 : 0 ≤ confidence) (hc1 : confidence ≤ 1)
    (htv : 0 ≤ p.total_value) (hcash : 0 ≤ p.cash) :
    calculate_trade_size token confidence md p ≤ 2/10 * p.total_value ∧
    (0 < md.liquidity.getD 0 →
      calculate_trade_size token confidence md p ≤ md.liquidity.getD 0 * (1/10)) ∧
    calculate_trade_size token confidence md p ≤ p.cash ∧
    0 ≤ calculate_trade_size token confidence md p ∧
    (p.cash = 0 → calculate_trade_size token confidence md p = 0) := by
  simp only [calculate_trade_size]
  have hm1 : p.total_value * (2/10) * confidence ≤ 2/10 * p.total_value := by nlinarith
  have hm0 : 0 ≤ p.total_value * (2/10) * confidence :=
    mul_nonneg (mul_nonneg htv (by norm_num)) hc0
  by_cases hL : md.liquidity.getD 0 > 0
  · rw [if_pos hL]
    have hq0 : 0 ≤ min (p.total_value * (2/10) * confidence) (md.liquidity.getD 0 * (1/10)) :=
      le_min hm0 (by nlinarith)
    have hq1 := min_le_left (p.total_value * (2/10) * confidence) (md.liquidity.getD 0 * (1/10))
    have hq2 := min_le_right (p.total_value * (2/10) * confidence) (md.liquidity.getD 0 * (1/10))
    by_cases hgt : min (p.total_value * (2/10) * confidence) (md.liquidity.getD 0 * (1/10)) >
        p.cash
    · rw [if_pos hgt]
      exact ⟨by linarith, fun _ => by linarith, le_refl _, hcash, fun h0 => h0⟩
    · rw [if_neg hgt]
      push_neg at hgt
      exact ⟨by linarith, fun _ => hq2, hgt, hq0, fun h0 => le_antisymm (h0 ▸ hgt) hq0⟩
  · rw [if_neg hL]
    by_cases hgt : p.total_value * (2/10) * confidence > p.cash
    · rw [if_pos hgt]
      exact ⟨by linarith, fun hl => absurd hl hL, le_refl _, hcash, fun h0 => h0⟩
    · rw [if_neg hgt]
      push_neg at hgt
      exact ⟨hm1, fun hl => absurd hl hL, hgt, hm0, fun h0 => le_antisymm (h0 ▸ hgt) hm0⟩

/-- C2 amended witness: at confidence 0.8, liquidity 500, total_value 1000,
cash 1000 all five bounds hold, via `C2_trade_size_bounds`. -/
theorem C2_trade_size_bounds_witness :
    calculate_trade_size "TOK" (8/10) ⟨some 500⟩ ⟨1000, [], 1000⟩ ≤ 2/10 * 1000 ∧
    0 ≤ calculate_trade_size "TOK" (8/10) ⟨some 500⟩ ⟨1000, [], 1000⟩ :=
  ⟨(C2_trade_size_bounds "TOK" (8/10) ⟨some 500⟩ ⟨1000, [], 1000⟩
      (by norm_num) (by norm_num) (by norm_num) (by norm_num)).1,
   (C2_trade_size_bounds "TOK" (8/10) ⟨some 500⟩ ⟨1000, [], 1000⟩
      (by norm_num) (by norm_num) (by norm_num) (by norm_num)).2.2.2.1⟩

/-- C8: the end-to-end sizing scenario — total_value 1000, cash 1000,
liquidity 500, confidence 0.8 — returns exactly 50
(max_position 200, position_size 160, liquidity clamp min(160, 50) = 50,
cash clamp min(50, 1000) = 50). -/
theorem C8_concrete_trade_size :
    calculate_trade_size "TOK" (8/10) ⟨some 500⟩ ⟨1000, [], 1000⟩ = 50 := by
  norm_num [calculate_trade_size, min_def]

/-! ## RSI (`MarketAnalyzer.calculate_rsi`, `market_analyzer.py` lines 191–202)

The pandas pipeline is modelled exactly:
`delta = prices.diff()` has a NaN in slot 0; `delta.where(delta > 0, 0)`
replaces that NaN by 0 (NaN > 0 is False), so the gain/loss series are
NaN-free rationals with a 0 in slot 0.  `rolling(period).mean()` is NaN at
every index before `period - 1`; hence for `1 ≤ len < period` the final
`rsi.iloc[-1]` is NaN and `float(...)` returns it without raising.  For an
empty series `iloc[-1]` raises IndexError and the `except` returns 50.0.
Float special values reachable in `rs = gain/loss` (+inf for g/0 with
g > 0, NaN for 0/0) are represented by `RVal`. -/

inductive RVal where
  | nan : RVal
  | inf : RVal
  | val : ℚ → RVal
deriving DecidableEq

/-- Pairwise first differences of the series (the non-NaN part of
`prices.diff()`). -/
def deltas : List ℚ → List ℚ
  | [] => []
  | [_] => []
  | a :: b :: rest => (b - a) :: deltas (b :: rest)

/-- The series `delta.where(delta > 0, 0)` feeding the gain rolling mean;
slot 0 holds the 0 that `where` substitutes for the NaN delta. -/
def gains (prices : List ℚ) : List ℚ :=
  match prices with
  | [] => []
  | _ :: _ => 0 :: (deltas prices).map (fun d => if d > 0 then d else 0)

/-- The series `(-delta.where(delta < 0, 0))` feeding the loss rolling
mean. -/
def losses (prices : List ℚ) : List ℚ :=
  match prices with
  | [] => []
  | _ :: _ => 0 :: (deltas prices).map (fun d => if d < 0 then -d else 0)

/-- Float division `gain / loss` for the nonnegative operands produced by
the rolling means: `g / 0` is +inf when `g ≠ 0` (here `g > 0`), `0 / 0` is
NaN, otherwise an ordinary quotient. -/
def float_div (g l : ℚ) : RVal :=
  if l = 0 then (if g = 0 then RVal.nan else RVal.inf) else RVal.val (g / l)

/-- Final step `rsi = 100 - 100 / (1 + rs)` of the source, on float
specials: `100 - 100/(1 + ∞) = 100`, and NaN propagates. -/
def rsi_of_rs : RVal → RVal
  | RVal.nan => RVal.nan
  | RVal.inf => RVal.val 100
  | RVal.val q => RVal.val (100 - 100 / (1 + q))

/-- Embedding of `MarketAnalyzer.calculate_rsi`.  The rolling mean at the
last index is the mean of the last `period` entries of the gain/loss
series, defined once the series has at least `period` entries (the series
have the same length as `prices`). -/
def calculate_rsi (prices : List ℚ) (period : ℕ) : RVal :=
  if prices.length = 0 then RVal.val 50
  else if prices.length < period then RVal.nan
  else
    let g : ℚ := ((gains prices).drop (prices.length - period)).sum / (period : ℚ)
    let l : ℚ := ((losses prices).drop (prices.length - period)).sum / (period : ℚ)
    rsi_of_rs (float_div g l)

lemma gains_nonneg (prices : List ℚ) : ∀ x ∈ gains prices, 0 ≤ x := by
  intro x hx
  cases prices with
  | nil => simp [gains] at hx
  | cons a rest =>
    simp only [gains, List.mem_cons, List.mem_map] at hx
    rcases hx with rfl | ⟨d, _, rfl⟩
    · exact le_refl 0
    · split_ifs with h
      · exact le_of_lt h
      · exact le_refl 0

lemma losses_nonneg (prices : List ℚ) : ∀ x ∈ losses prices, 0 ≤ x := by
  intro x hx
  cases prices with
  | nil => simp [losses] at hx
  | cons a rest =>
    simp only [losses, List.mem_cons, List.mem_map] at hx
    rcases hx with rfl | ⟨d, _, rfl⟩
    · exact le_refl 0
    · split_ifs with h
      · linarith
      · exact le_refl 0

/-- C5 counterexample: the 14-point strictly increasing series
1, 2, …, 14 has fewer than period+1 = 15 points, yet `calculate_rsi`
returns 100.0, not 50.0 (all rolling windows are full because the NaN
delta was replaced by 0, and the loss average is 0 with a positive gain
average). -/
theorem C5_rsi_counterexample :
    calculate_rsi [1, 2, 3, 4, 5, 6, 7, 8, 9, 10, 11, 12, 13, 14] 14 = RVal.val 100 ∧
    calculate_rsi [1, 2, 3, 4, 5, 6, 7, 8, 9, 10, 11, 12, 13, 14] 14 ≠ RVal.val 50 ∧
    ([1, 2, 3, 4, 5, 6, 7, 8, 9, 10, 11, 12, 13, 14] : List ℚ).length < 14 + 1 := by
  have h : calculate_rsi [1, 2, 3, 4, 5, 6, 7, 8, 9, 10, 11, 12, 13, 14] 14 =
      RVal.val 100 := by
    simp [calculate_rsi, gains, losses, deltas, float_div, rsi_of_rs]
    norm_num
  exact ⟨h, by rw [h]; intro hc; simp at hc, by simp⟩

/-- C5 amended: every real (non-NaN) value `calculate_rsi` returns lies in
[0, 100]; the 50.0 default occurs for the empty series; a non-empty series
with fewer than `period` points yields NaN (not 50.0), and a series of
exactly `period` points already yields a computed RSI — so "fewer than
period+1 points gives exactly 50.0" is false. -/
theorem C5_rsi_range (prices : List ℚ) (period : ℕ) :
    (∀ q : ℚ, calculate_rsi prices period = RVal.val q → 0 ≤ q ∧ q ≤ 100) ∧
    (prices.length = 0 → calculate_rsi prices period = RVal.val 50) ∧
    (1 ≤ prices.length → prices.length < period → calculate_rsi prices period = RVal.nan) := by
  refine ⟨?_, ?_, ?_⟩
  · intro q hq
    simp only [calculate_rsi] at hq
    split_ifs at hq with h0 hlt
    · simp only [RVal.val.injEq] at hq
      subst hq
      norm_num
    · have hG : 0 ≤ ((gains prices).drop (prices.length - period)).sum / (period : ℚ) :=
        div_nonneg
          (List.sum_nonneg fun x hx => gains_nonneg prices x (List.mem_of_mem_drop hx))
          (Nat.cast_nonneg _)
      have hL : 0 ≤ ((losses prices).drop (prices.length - period)).sum / (period : ℚ) :=
        div_nonneg
          (List.sum_nonneg fun x hx => losses_nonneg prices x (List.mem_of_mem_drop hx))
          (Nat.cast_nonneg _)
      simp only [float_div, rsi_of_rs] at hq
      split_ifs at hq with hl0 hg0
      · simp only [RVal.val.injEq] at hq
        subst hq
        norm_num
      · simp only [RVal.val.injEq] at hq
        subst hq
        have hlpos : 0 < ((losses prices).drop (prices.length - period)).sum / (period : ℚ) :=
          lt_of_le_of_ne hL (Ne.symm hl0)
        have hrs : 0 ≤ ((gains prices).drop (prices.length - period)).sum / (period : ℚ) /
            (((losses prices).drop (prices.length - period)).sum / (period : ℚ)) :=
          div_nonneg hG hL
        have h1 : (1:ℚ) ≤ 1 +
            ((gains prices).drop (prices.length - period)).sum / (period : ℚ) /
            (((losses prices).drop (prices.length - period)).sum / (period : ℚ)) := by
          linarith
        constructor
        · have h2 := div_le_self (by norm_num : (0:ℚ) ≤ 100) h1
          linarith
        · have h3 := div_pos (by norm_num : (0:ℚ) < 100)
            (by linarith : (0:ℚ) < 1 +
              ((gains prices).drop (prices.length - period)).sum / (period : ℚ) /
              (((losses prices).drop (prices.length - period)).sum / (period : ℚ)))
          linarith
  · intro h0
    simp only [calculate_rsi]
    rw [if_pos h0]
  · intro h1 h2
    simp only [calculate_rsi]
    rw [if_neg (by omega), if_pos h2]

/-- C5 amended witness: the series [1, 2, 1] with period 2 evaluates to
the real value 50 and the range bound applies to it; the empty series
yields 50.0 and a 1-point series yields NaN, all via `C5_rsi_range`. -/
theorem C5_rsi_range_witness :
    (0 ≤ (50 : ℚ) ∧ (50 : ℚ) ≤ 100) ∧
    calculate_rsi [] 14 = RVal.val 50 ∧
    calculate_rsi [5] 14 = RVal.nan :=
  ⟨(C5_rsi_range [1, 2, 1] 2).1 50
      (by simp [calculate_rsi, gains, losses, deltas, float_div, rsi_of_rs]; norm_num),
   (C5_rsi_range [] 14).2.1 rfl,
   (C5_rsi_range [5] 14).2.2 (by norm_num) (by norm_num)⟩

/-! ## Portfolio update (`HedgeFundAgent.update_portfolio`,
`HedgeFundAgent.calculate_total_value`, `hedge_fund.py` lines 212–242)

Python dicts keyed by strings are modelled as association lists with
insertion-order semantics: updating an existing key keeps its position,
a new key is appended at the end. -/

def alookup {α : Type} : List (String × α) → String → Option α
  | [], _ => none
  | (k, v) :: rest, key => if k = key then some v else alookup rest key

def aset {α : Type} : List (String × α) → String → α → List (String × α)
  | [], key, v => [(key, v)]
  | (k, w) :: rest, key, v =>
      if k = key then (k, v) :: rest else (k, w) :: aset rest key v

/-- Embedding of `HedgeFundAgent.calculate_total_value` as written.  The
loop body runs `float(self.get_current_price(token))`, but
`get_current_price` is an `async def` and is never awaited, so the call
returns a coroutine object and `float(...)` raises TypeError on every
iteration; the `except` logs and skips the token.  Hence no position ever
contributes and the method always sets `total_value = cash`. -/
def calculate_total_value (p : Portfolio) : Portfolio :=
  { p with total_value := p.cash }

/-- Total-value computation the source is written to perform (and what the
claim describes): revalue every held position at its current looked-up
price, omitting any token whose price lookup fails.  The external price
lookup is modelled as a partial function. -/
def calculate_total_value_awaited (price : String → Option ℚ) (p : Portfolio) : Portfolio :=
  { p with total_value :=
      p.positions.foldl (fun acc kv =>
        match price kv.1 with
        | some pr => acc + kv.2 * pr
        | none => acc) p.cash }

structure Trade where
  token : String
  action : String
  amount : ℚ

/-- Embedding of `HedgeFundAgent.update_portfolio`: a `buy` subtracts
`amount * price` from cash and adds `amount` to the token's position,
any other action adds to cash and subtracts from the position (no floor
at 0), then `calculate_total_value` runs. -/
def update_portfolio (p : Portfolio) (trade : Trade) (executed_price : ℚ) : Portfolio :=
  let amount : ℚ := trade.amount
  let price : ℚ := executed_price
  let p1 : Portfolio :=
    if trade.action = "buy" then
      { p with cash := p.cash - amount * price,
               positions := aset p.positions trade.token
                 ((alookup p.positions trade.token).getD 0 + amount) }
    else
      { p with cash := p.cash + amount * price,
               positions := aset p.positions trade.token
                 ((alookup p.positions trade.token).getD 0 - amount) }
  calculate_total_value p1

/-- C7: buying 2 SOL at price 100 from cash 1000 updates cash and the
position as the claim states, but the resulting `total_value` is 800
(= cash), not cash plus the revalued position: with the current SOL price
100, the revaluation the claim (and the spec) describe yields 1000.  The
divergence is a code bug — `calculate_total_value` never awaits the async
`get_current_price`, so every price lookup raises and is skipped. -/
theorem C7_total_value_never_awaited :
    (update_portfolio ⟨1000, [], 1000⟩ ⟨"SOL", "buy", 2⟩ 100).cash = 800 ∧
    (update_portfolio ⟨1000, [], 1000⟩ ⟨"SOL", "buy", 2⟩ 100).positions = [("SOL", 2)] ∧
    (update_portfolio ⟨1000, [], 1000⟩ ⟨"SOL", "buy", 2⟩ 100).total_value = 800 ∧
    (calculate_total_value_awaited (fun tok => if tok = "SOL" then some 100 else none)
        (update_portfolio ⟨1000, [], 1000⟩ ⟨"SOL", "buy", 2⟩ 100)).total_value = 1000 := by
  refine ⟨?_, ?_, ?_, ?_⟩ <;>
    norm_num [update_portfolio, calculate_total_value, calculate_total_value_awaited,
      aset, alookup, List.foldl]

/-! ## Memory system (`cognition/memory.py`)

Entry payloads (`data: Dict[str, Any]`) are association lists of
`MemValue`s: numeric payloads (`int`/`float`) and opaque non-numeric
payloads.  Python's `float(x)` on a non-numeric payload raises; numeric
strings are outside the modelled value domain (no claim uses them). -/

inductive MemValue where
  | num : ℚ → MemValue
  | str : String → MemValue
deriving DecidableEq

abbrev MemData := List (String × MemValue)

structure MemoryEntry where
  timestamp : ℕ
  type : String
  data : MemData
  importance : ℚ
  metadata : Option MemData
deriving DecidableEq

/-- Conversion `float(value)` applied to a dict payload. -/
def pyFloat : MemValue → Except Unit ℚ
  | MemValue.num q => Except.ok q
  | MemValue.str _ => Except.error ()

/-- Embedding of `MemorySystem._calculate_importance` (`memory.py` lines
114–133): base 0.5 plus type-specific additions, clamped above by
`min(1.0, ·)`; there is no clamp below.  `trade_size` is
`abs(float(data.get('size', 0)))` and the profit contribution uses
`abs(profit)`.  A failing `float` conversion propagates as an error
(caught by `add`). -/
def calculate_importance (entry_type : String) (data : MemData) : Except Unit ℚ :=
  if entry_type = "trade" then
    match pyFloat ((alookup data "size").getD (MemValue.num 0)),
          pyFloat ((alookup data "profit").getD (MemValue.num 0)) with
    | Except.ok size, Except.ok profit =>
        Except.ok (min 1 (1/2 + min (3/10) (|size| / 10000) + min (1/5) (|profit| / 1000)))
    | Except.error e, _ => Except.error e
    | _, Except.error e => Except.error e
  else if entry_type = "error" then
    Except.ok (min 1 (1/2 + 3/10))
  else if entry_type = "analysis" then
    match pyFloat ((alookup data "confidence").getD (MemValue.num 0)),
          pyFloat ((alookup data "risk_score").getD (MemValue.num 0)) with
    | Except.ok confidence, Except.ok risk_score =>
        Except.ok (min 1 (1/2 + (1/5) * confidence + (1/5) * risk_score))
    | Except.error e, _ => Except.error e
    | _, Except.error e => Except.error e
  else
    Except.ok (min 1 (1/2 : ℚ))

structure Metrics where
  trades : List MemData
  win_rate : ℚ
  avg_profit : ℚ
  total_trades : ℕ
deriving DecidableEq

def initMetrics : Metrics :=
  { trades := [], win_rate := 0, avg_profit := 0, total_trades := 0 }

/-- The list comprehension `[float(t.get('profit', 0)) for t in trades]`;
errors on the first non-numeric stored profit. -/
def profitsOf : List MemData → Except Unit (List ℚ)
  | [] => Except.ok []
  | d :: rest =>
      match pyFloat ((alookup d "profit").getD (MemValue.num 0)), profitsOf rest with
      | Except.ok p, Except.ok ps => Except.ok (p :: ps)
      | Except.error e, _ => Except.error e
      | _, Except.error e => Except.error e

/-- The `avg_profit` recomputation closing `_update_metrics`.  The Boolean
records whether the Python body raised there; on a raise `avg_profit`
keeps its previous value (the exception escapes to `add`). -/
def recomputeAvg (m : Metrics) : Metrics × Bool :=
  match profitsOf m.trades with
  | Except.error _ => (m, true)
  | Except.ok ps =>
      ({ m with avg_profit := if ps.length = 0 then 0 else ps.sum / (ps.length : ℚ) }, false)

/-- Embedding of `MemorySystem._update_metrics` (`memory.py` lines
213–234).  `total_trades` is incremented and the trade recorded before the
profit branch; with the *new* total `n`, a positive profit sets
`win_rate := (win_rate·(n−1) + 1)/n`, a non-positive one
`win_rate := win_rate·(n−1)/n`; a missing profit key leaves `win_rate`
unchanged.  The Boolean records whether the body raised partway (then the
mutations already made persist). -/
def update_metrics (m : Metrics) (trade_data : MemData) : Metrics × Bool :=
  let m1 : Metrics := { m with total_trades := m.total_trades + 1,
                               trades := m.trades ++ [trade_data] }
  match alookup trade_data "profit" with
  | none => recomputeAvg m1
  | some v =>
      match pyFloat v with
      | Except.error _ => (m1, true)
      | Except.ok profit =>
          let n : ℚ := (m1.total_trades : ℚ)
          let wr : ℚ :=
            if profit > 0 then (m1.win_rate * (n - 1) + 1) / n
            else m1.win_rate * (n - 1) / n
          recomputeAvg { m1 with win_rate := wr }

/-! ### Consolidation (`_consolidate_memories`, `_merge_memory_data`) -/

/-- Rendering of `memory.data.get('token', '')` inside the grouping key
f-string.  String payloads render as themselves; the textual rendering of
a numeric payload differs from Python's float formatting, but no claim
depends on a numeric token. -/
def tokenStr (data : MemData) : String :=
  match alookup data "token" with
  | none => ""
  | some (MemValue.str s) => s
  | some (MemValue.num q) => toString q

/-- The grouping key `f"{memory.type}_{memory.data.get('token', '')}"`. -/
def memKey (m : MemoryEntry) : String := m.type ++ "_" ++ tokenStr m.data

/-- One step of building the `groups` dict: append the entry to its key's
list, creating the key at the end of the dict if new. -/
def addToGroups : List (String × List MemoryEntry) → MemoryEntry →
    List (String × List MemoryEntry)
  | [], m => [(memKey m, [m])]
  | (k, g) :: rest, m =>
      if k = memKey m then (k, g ++ [m]) :: rest
      else (k, g) :: addToGroups rest m

def groupMemories (st : List MemoryEntry) : List (String × List MemoryEntry) :=
  st.foldl addToGroups []

/-- An in-progress `merged[key]` value: either the list of numeric values
collected so far, or a non-numeric value that overwrote the slot. -/
inductive Merged where
  | nums : List ℚ → Merged
  | raw : String → Merged
deriving DecidableEq

/-- One `(key, value)` step of `_merge_memory_data`: a fresh key starts as
`[]`; a numeric value is appended to the list (raising if the slot was
overwritten by a non-numeric value — `.append` on a non-list); a
non-numeric value overwrites the slot. -/
def mergeKV (merged : List (String × Merged)) (kv : String × MemValue) :
    Except Unit (List (String × Merged)) :=
  match kv.2, (alookup merged kv.1).getD (Merged.nums []) with
  | MemValue.num q, Merged.nums l => Except.ok (aset merged kv.1 (Merged.nums (l ++ [q])))
  | MemValue.num _, Merged.raw _ => Except.error ()
  | MemValue.str s, _ => Except.ok (aset merged kv.1 (Merged.raw s))

/-- The closing pass of `_merge_memory_data`: a non-empty list of numbers
becomes its average, a non-numeric value stays.  (`nums []` cannot occur:
a fresh slot is immediately appended to or overwritten.) -/
def finalizeMerged : Merged → MemValue
  | Merged.nums [] => MemValue.num 0
  | Merged.nums (q :: rest) => MemValue.num ((q :: rest).sum / ((q :: rest).length : ℚ))
  | Merged.raw s => MemValue.str s

/-- Embedding of `MemorySystem._merge_memory_data` (`memory.py` lines
194–211): fold every entry's `(key, value)` pairs through `mergeKV`, then
finalize. -/
def merge_memory_data (ms : List MemoryEntry) : Except Unit MemData :=
  match ms.foldlM (fun acc m => m.data.foldlM mergeKV acc) [] with
  | Except.error e => Except.error e
  | Except.ok merged => Except.ok (merged.map (fun kv => (kv.1, finalizeMerged kv.2)))

/-- `max(m.importance for m in group)` (groups are non-empty). -/
def maxImportance : List MemoryEntry → ℚ
  | [] => 0
  | m :: rest => rest.foldl (fun acc x => max acc x.importance) m.importance

def headType : List MemoryEntry → String
  | [] => ""
  | m :: _ => m.type

/-- The consolidation loop: each group with more than one entry is merged
into a single fresh entry stamped `now`; singleton groups contribute
nothing.  A merge error aborts the whole consolidation. -/
def consolidateGroups (now : ℕ) : List (String × List MemoryEntry) →
    Except Unit (List MemoryEntry)
  | [] => Except.ok []
  | (_, g) :: rest =>
      if g.length > 1 then
        match merge_memory_data g, consolidateGroups now rest with
        | Except.error e, _ => Except.error e
        | _, Except.error e => Except.error e
        | Except.ok d, Except.ok c =>
            Except.ok ({ timestamp := now, type := headType g, data := d,
                         importance := maxImportance g, metadata := none } :: c)
      else consolidateGroups now rest

/-- Embedding of `MemorySystem._consolidate_memories` (`memory.py` lines
161–192): on success the short-term buffer is replaced wholesale by the
merged entries; on an internal error the `except` leaves the buffer
untouched (the `clear`/`extend` never run). -/
def consolidate (now : ℕ) (st : List MemoryEntry) : List MemoryEntry :=
  match consolidateGroups now (groupMemories st) with
  | Except.ok c => c
  | Except.error _ => st

/-! ### The system state and `add` -/

structure MemorySystem where
  max_size : ℕ
  importance_threshold : ℚ
  consolidation_interval : ℕ
  short_term : List MemoryEntry
  long_term : List MemoryEntry
  metrics : Metrics

/-- `collections.deque(maxlen=maxlen).append`: past capacity the oldest
entries are silently evicted from the left. -/
def dappend {α : Type} (maxlen : ℕ) (q : List α) (e : α) : List α :=
  (q ++ [e]).drop (q.length + 1 - maxlen)

/-- Fresh `MemorySystem(max_size, importance_threshold,
consolidation_interval)` (`memory.py` lines 21–41): empty deques
(short-term capacity hardcoded to 100) and zeroed metrics. -/
def initSystem (max_size : ℕ) (importance_threshold : ℚ)
    (consolidation_interval : ℕ) : MemorySystem :=
  { max_size := max_size, importance_threshold := importance_threshold,
    consolidation_interval := consolidation_interval,
    short_term := [], long_term := [], metrics := initMetrics }

/-- Embedding of `MemorySystem.add` (`memory.py` lines 43–71).  An
importance-computation error aborts before any mutation; the entry is
appended to short-term, to long-term when `importance ≥ threshold`;
`"trade"` entries update the metrics (a raise there persists the partial
metric mutations and skips the consolidation check); consolidation runs
when the short-term length reaches `consolidation_interval`. -/
def MemorySystem.add (sys : MemorySystem) (now : ℕ) (entry_type : String)
    (data : MemData) (metadata : Option MemData) : MemorySystem :=
  match calculate_importance entry_type data with
  | Except.error _ => sys
  | Except.ok importance =>
      let entry : MemoryEntry :=
        { timestamp := now, type := entry_type, data := data,
          importance := importance, metadata := metadata }
      let short1 := dappend 100 sys.short_term entry
      let long1 :=
        if importance ≥ sys.importance_threshold then
          dappend sys.max_size sys.long_term entry
        else sys.long_term
      let mr : Metrics × Bool :=
        if entry_type = "trade" then update_metrics sys.metrics data
        else (sys.metrics, false)
      let short2 :=
        if mr.2 then short1
        else if sys.consolidation_interval ≤ short1.length then consolidate now short1
        else short1
      { sys with short_term := short2, long_term := long1, metrics := mr.1 }

structure AddOp where
  now : ℕ
  entry_type : String
  data : MemData
  metadata : Option MemData

/-- A sequence of `add` calls against a memory system. -/
def runAdds (sys : MemorySystem) (ops : List AddOp) : MemorySystem :=
  ops.foldl (fun s op => s.add op.now op.entry_type op.data op.metadata) sys

/-! ## Claim theorems for the memory system -/

/-- C9 counterexample: an analysis entry with confidence −10 gets
importance 0.5 + 0.2·(−10) = −1.5; `min(1.0, ·)` clamps only above, so the
result is not in [0, 1] for negative confidence values. -/
theorem C9_importance_counterexample :
    calculate_importance "analysis" [("confidence", MemValue.num (-10))] =
      Except.ok (-(3/2)) ∧
    ¬ (0:ℚ) ≤ -(3/2) := by
  constructor
  · norm_num [calculate_importance, alookup, pyFloat, min_def,
      (show "analysis" ≠ "trade" by decide), (show "analysis" ≠ "error" by decide),
      (show "confidence" ≠ "risk_score" by decide)]
  · norm_num

/-- C9 amended: importance is base 0.5 plus the claimed type-specific
additions, clamped above by 1 only: it is always ≤ 1; for trade entries it
is ≥ 1/2 and follows the claimed formula; error entries get exactly 0.8;
analysis entries follow the claimed formula and lie in [0, 1] when
confidence and risk_score are nonnegative — but can be negative otherwise
(no clamp below). -/
theorem C9_importance_formula (entry_type : String) (data : MemData) (i : ℚ)
    (h : calculate_importance entry_type data = Except.ok i) :
    i ≤ 1 ∧
    (entry_type = "error" → i = 4/5) ∧
    (entry_type = "trade" → 1/2 ≤ i ∧ ∀ s p : ℚ,
      alookup data "size" = some (MemValue.num s) →
      alookup data "profit" = some (MemValue.num p) →
      i = min 1 (1/2 + min (3/10) (|s| / 10000) + min (1/5) (|p| / 1000))) ∧
    (entry_type = "analysis" → ∀ c r : ℚ,
      alookup data "confidence" = some (MemValue.num c) →
      alookup data "risk_score" = some (MemValue.num r) →
      i = min 1 (1/2 + (1/5) * c + (1/5) * r) ∧ (0 ≤ c → 0 ≤ r → 0 ≤ i)) := by
  unfold calculate_importance at h
  split_ifs at h with ht he ha
  · rcases hs : (alookup data "size").getD (MemValue.num 0) with qs | ss <;>
      rcases hp : (alookup data "profit").getD (MemValue.num 0) with qp | sp <;>
      rw [hs, hp] at h <;> first | injection h with h | injection h
    · subst h
      have ha1 : (0:ℚ) ≤ min (3/10) (|qs| / 10000) := le_min (by norm_num) (by positivity)
      have ha2 : (0:ℚ) ≤ min (1/5) (|qp| / 1000) := le_min (by norm_num) (by positivity)
      refine ⟨min_le_left _ _,
        fun he2 => absurd (ht ▸ he2) (by decide),
        fun _ => ⟨le_min (by norm_num) (by linarith), fun s p hsl hpl => ?_⟩,
        fun ha2 => absurd (ht ▸ ha2) (by decide)⟩
      rw [hsl] at hs
      rw [hpl] at hp
      simp only [Option.getD_some, MemValue.num.injEq] at hs hp
      rw [hs, hp]
  · injection h with h
    subst h
    refine ⟨min_le_left _ _, fun _ => by norm_num [min_def],
      fun ht2 => absurd ht2 ht,
      fun ha2 => absurd (he ▸ ha2) (by decide)⟩
  · rcases hc : (alookup data "confidence").getD (MemValue.num 0) with qc | sc <;>
      rcases hr : (alookup data "risk_score").getD (MemValue.num 0) with qr | sr <;>
      rw [hc, hr] at h <;> first | injection h with h | injection h
    · subst h
      refine ⟨min_le_left _ _,
        fun he2 => absurd he2 he,
        fun ht2 => absurd ht2 ht,
        fun _ c r hcl hrl => ?_⟩
      rw [hcl] at hc
      rw [hrl] at hr
      simp only [Option.getD_some, MemValue.num.injEq] at hc hr
      subst hc
      subst hr
      exact ⟨rfl, fun hc0 hr0 => le_min (by norm_num) (by linarith)⟩
  · injection h with h
    subst h
    exact ⟨min_le_left _ _, fun he2 => absurd he2 he,
      fun ht2 => absurd ht2 ht, fun ha2 => absurd ha2 ha⟩

/-- C9 amended witness: a trade of size 10000 with profit 1000 reaches
importance exactly 1, and the amended bounds apply to it. -/
theorem C9_importance_formula_witness :
    (1:ℚ) ≤ 1 ∧ (1/2 : ℚ) ≤ 1 :=
  have h : calculate_importance "trade"
      [("size", MemValue.num 10000), ("profit", MemValue.num 1000)] = Except.ok 1 := by
    norm_num [calculate_importance, alookup, pyFloat, min_def, abs_of_nonneg,
      (show "size" ≠ "profit" by decide)]
  have h2 := C9_importance_formula "trade"
    [("size", MemValue.num 10000), ("profit", MemValue.num 1000)] 1 h
  ⟨h2.1, (h2.2.2.1 rfl).1⟩

/-! ### C10: win_rate stays in [0, 1] -/

/-- A sequence of `_update_metrics` calls starting from the fresh metrics
of a new `MemorySystem`. -/
def runMetrics (l : List MemData) : Metrics :=
  l.foldl (fun m d => (update_metrics m d).1) initMetrics

lemma recomputeAvg_win_rate (m : Metrics) : ((recomputeAvg m).1).win_rate = m.win_rate := by
  rcases h : profitsOf m.trades with e | ps <;> simp [recomputeAvg, h]

lemma update_metrics_win_rate_bounds (m : Metrics) (d : MemData)
    (h0 : 0 ≤ m.win_rate) (h1 : m.win_rate ≤ 1) :
    0 ≤ (update_metrics m d).1.win_rate ∧ (update_metrics m d).1.win_rate ≤ 1 := by
  unfold update_metrics
  rcases hp : alookup d "profit" with _ | v
  · simp only [hp]
    rw [recomputeAvg_win_rate]
    exact ⟨h0, h1⟩
  · rcases v with q | s
    · simp only [hp, pyFloat]
      rw [recomputeAvg_win_rate]
      dsimp only
      have hn1 : (1:ℚ) ≤ ((m.total_trades + 1 : ℕ) : ℚ) := by
        exact_mod_cast Nat.succ_le_succ (Nat.zero_le _)
      have hnpos : (0:ℚ) < ((m.total_trades + 1 : ℕ) : ℚ) := by linarith
      split_ifs with hq
      · constructor
        · exact div_nonneg (by nlinarith) (by linarith)
        · exact (div_le_one hnpos).mpr (by nlinarith)
      · constructor
        · exact div_nonneg (by nlinarith) (by linarith)
        · exact (div_le_one hnpos).mpr (by nlinarith)
    · simp only [hp, pyFloat]
      exact ⟨h0, h1⟩

/-- C10: starting from the fresh metrics (win_rate 0, total_trades 0),
every sequence of `_update_metrics` calls keeps win_rate in [0, 1]: an
update carrying a profit replaces it with the convex combination
`(win_rate·(n−1) + indicator)/n` for the new total `n`, and an update
without a profit field leaves it unchanged. -/
theorem C10_win_rate_in_unit_interval :
    (∀ l : List MemData, 0 ≤ (runMetrics l).win_rate ∧ (runMetrics l).win_rate ≤ 1) ∧
    (∀ (m : Metrics) (d : MemData), alookup d "profit" = none →
      (update_metrics m d).1.win_rate = m.win_rate) := by
  constructor
  · have h : ∀ (l : List MemData) (m : Metrics), 0 ≤ m.win_rate → m.win_rate ≤ 1 →
        0 ≤ (l.foldl (fun m d => (update_metrics m d).1) m).win_rate ∧
        (l.foldl (fun m d => (update_metrics m d).1) m).win_rate ≤ 1 := by
      intro l
      induction l with
      | nil => intro m h0 h1; exact ⟨h0, h1⟩
      | cons d rest ih =>
        intro m h0 h1
        have hstep := update_metrics_win_rate_bounds m d h0 h1
        exact ih _ hstep.1 hstep.2
    intro l
    exact h l initMetrics (le_refl 0) (by norm_num [initMetrics])
  · intro m d hp
    unfold update_metrics
    simp only [hp]
    rw [recomputeAvg_win_rate]

/-- C10 witness: an update without a profit field applied to the fresh
metrics leaves win_rate at 0, and the empty sequence satisfies the
bounds, via `C10_win_rate_in_unit_interval`. -/
theorem C10_win_rate_in_unit_interval_witness :
    (0 ≤ (runMetrics []).win_rate ∧ (runMetrics []).win_rate ≤ 1) ∧
    (update_metrics initMetrics [("token", MemValue.str "SOL")]).1.win_rate =
      initMetrics.win_rate :=
  ⟨C10_win_rate_in_unit_interval.1 [],
   C10_win_rate_in_unit_interval.2 initMetrics [("token", MemValue.str "SOL")] rfl⟩

/-! ### C3: consolidation drops solitary entries -/

lemma consolidateGroups_timestamp (now : ℕ) :
    ∀ (gs : List (String × List MemoryEntry)) (c : List MemoryEntry),
      consolidateGroups now gs = Except.ok c → ∀ x ∈ c, x.timestamp = now := by
  intro gs
  induction gs with
  | nil =>
    intro c h x hx
    injection h with h
    subst h
    simp at hx
  | cons g rest ih =>
    intro c h x hx
    obtain ⟨k, grp⟩ := g
    simp only [consolidateGroups] at h
    split_ifs at h with hlen
    · rcases hm : merge_memory_data grp with e | d <;>
        rcases hr : consolidateGroups now rest with e2 | c2 <;>
        rw [hm, hr] at h <;> first | injection h with h | injection h
      subst h
      rcases List.mem_cons.mp hx with hx1 | hx2
      · rw [hx1]
      · exact ih c2 hr x hx2
    · exact ih c h x hx

/-- A short-term buffer holding exactly one entry: one singleton
(type, token) group. -/
def soloTradeEntry : MemoryEntry :=
  ⟨0, "trade", [("token", MemValue.str "SOL")], 1/2, none⟩

/-- A second solitary entry, of analysis type. -/
def soloAnalysisEntry : MemoryEntry :=
  ⟨0, "analysis", [("token", MemValue.str "ETH")], 1, none⟩

/-- C3 counterexample: a short-term buffer holding exactly one entry (one
singleton (type, token) group) consolidates to the empty buffer — the
solitary entry does not survive, contradicting the claim. -/
theorem C3_consolidation_counterexample :
    consolidate 1 [soloTradeEntry] = [] := by
  rfl

/-- C3 amended: consolidation is not idempotent on singleton groups — it
deletes them.  If an entry's (type, token) group contains exactly that one
entry, and consolidation completes without a merge error (producing `c`),
the short-term buffer becomes `c` and the solitary entry is not in it
(every consolidated entry is freshly stamped with the consolidation time,
and only groups with more than one entry produce an entry at all). -/
theorem C3_singleton_not_preserved (st : List MemoryEntry) (e : MemoryEntry) (now : ℕ)
    (c : List MemoryEntry)
    (hmem : e ∈ st)
    (_hsingle : (st.filter (fun m => memKey m = memKey e)).length = 1)
    (hts : ∀ m ∈ st, m.timestamp < now)
    (hok : consolidateGroups now (groupMemories st) = Except.ok c) :
    consolidate now st = c ∧ e ∉ c := by
  constructor
  · simp [consolidate, hok]
  · intro hc
    have h1 := consolidateGroups_timestamp now (groupMemories st) c hok e hc
    have h2 := hts e hmem
    omega

/-- C3 amended witness: a buffer with one analysis entry satisfies all the
hypotheses (it is its own singleton group, its timestamp 0 precedes the
consolidation time 1, and consolidation succeeds with result `[]`), and
`C3_singleton_not_preserved` applies. -/
theorem C3_singleton_not_preserved_witness :
    consolidate 1 [soloAnalysisEntry] = [] ∧
    soloAnalysisEntry ∉ ([] : List MemoryEntry) :=
  C3_singleton_not_preserved [soloAnalysisEntry] soloAnalysisEntry 1 []
    (List.mem_singleton.mpr rfl)
    (by simp)
    (by intro m hm; rw [List.mem_singleton] at hm; subst hm; decide)
    rfl

/-! ### C6: buffer capacity invariants -/

lemma dappend_length_le {α : Type} (maxlen : ℕ) (q : List α) (e : α)
    (_h : q.length ≤ maxlen) : (dappend maxlen q e).length ≤ maxlen := by
  simp [dappend]
  omega

lemma addToGroups_length_le (gs : List (String × List MemoryEntry)) (m : MemoryEntry) :
    (addToGroups gs m).length ≤ gs.length + 1 := by
  induction gs with
  | nil => simp [addToGroups]
  | cons g rest ih =>
    obtain ⟨k, grp⟩ := g
    simp only [addToGroups]
    split_ifs
    · simp
    · simp only [List.length_cons]
      omega

lemma groupMemories_length_le (st : List MemoryEntry) :
    (groupMemories st).length ≤ st.length := by
  have h : ∀ (l : List MemoryEntry) (acc : List (String × List MemoryEntry)),
      (l.foldl addToGroups acc).length ≤ acc.length + l.length := by
    intro l
    induction l with
    | nil => intro acc; simp
    | cons x xs ih =>
      intro acc
      have h1 := ih (addToGroups acc x)
      have h2 := addToGroups_length_le acc x
      simp only [List.foldl_cons, List.length_cons]
      omega
  simpa [groupMemories] using h st []

lemma consolidateGroups_length_le (now : ℕ) :
    ∀ (gs : List (String × List MemoryEntry)) (c : List MemoryEntry),
      consolidateGroups now gs = Except.ok c → c.length ≤ gs.length := by
  intro gs
  induction gs with
  | nil =>
    intro c h
    injection h with h
    subst h
    simp
  | cons g rest ih =>
    intro c h
    obtain ⟨k, grp⟩ := g
    simp only [consolidateGroups] at h
    split_ifs at h with hlen
    · rcases hm : merge_memory_data grp with e | d <;>
        rcases hr : consolidateGroups now rest with e2 | c2 <;>
        rw [hm, hr] at h <;> first | injection h with h | injection h
      subst h
      have := ih c2 hr
      simp only [List.length_cons]
      omega
    · have := ih c h
      simp only [List.length_cons]
      omega

lemma consolidate_length_le (now : ℕ) (st : List MemoryEntry) :
    (consolidate now st).length ≤ st.length := by
  rcases h : consolidateGroups now (groupMemories st) with e | c
  · simp [consolidate, h]
  · simp only [consolidate, h]
    exact le_trans (consolidateGroups_length_le now _ c h) (groupMemories_length_le st)

lemma add_max_size (sys : MemorySystem) (now : ℕ) (t : String) (d : MemData)
    (md : Option MemData) : (sys.add now t d md).max_size = sys.max_size := by
  unfold MemorySystem.add
  rcases h : calculate_importance t d with e | i <;> simp [h]

lemma add_importance_threshold (sys : MemorySystem) (now : ℕ) (t : String) (d : MemData)
    (md : Option MemData) :
    (sys.add now t d md).importance_threshold = sys.importance_threshold := by
  unfold MemorySystem.add
  rcases h : calculate_importance t d with e | i <;> simp [h]

lemma add_short_le (sys : MemorySystem) (now : ℕ) (t : String) (d : MemData)
    (md : Option MemData) (h : sys.short_term.length ≤ 100) :
    (sys.add now t d md).short_term.length ≤ 100 := by
  rcases hi : calculate_importance t d with e | i <;>
    simp only [MemorySystem.add, hi]
  · exact h
  · have h1 := dappend_length_le 100 sys.short_term ⟨now, t, d, i, md⟩ h
    split_ifs <;> first
      | exact h1
      | exact le_trans (consolidate_length_le _ _) h1

lemma add_long_le (sys : MemorySystem) (now : ℕ) (t : String) (d : MemData)
    (md : Option MemData) (h : sys.long_term.length ≤ sys.max_size) :
    (sys.add now t d md).long_term.length ≤ (sys.add now t d md).max_size := by
  rw [add_max_size]
  rcases hi : calculate_importance t d with e | i <;>
    simp only [MemorySystem.add, hi]
  · exact h
  · split_ifs
    · exact dappend_length_le _ _ _ h
    · exact h

lemma runAdds_cons (sys : MemorySystem) (op : AddOp) (rest : List AddOp) :
    runAdds sys (op :: rest) =
      runAdds (sys.add op.now op.entry_type op.data op.metadata) rest := rfl

lemma runAdds_invariant (ops : List AddOp) :
    ∀ sys : MemorySystem, sys.short_term.length ≤ 100 →
      sys.long_term.length ≤ sys.max_size →
      (runAdds sys ops).short_term.length ≤ 100 ∧
      (runAdds sys ops).long_term.length ≤ (runAdds sys ops).max_size := by
  induction ops with
  | nil => intro sys h1 h2; exact ⟨h1, h2⟩
  | cons op rest ih =>
    intro sys h1 h2
    rw [runAdds_cons]
    exact ih _ (add_short_le sys op.now op.entry_type op.data op.metadata h1)
      (add_long_le sys op.now op.entry_type op.data op.metadata h2)

lemma add_long_empty (sys : MemorySystem) (now : ℕ) (t : String) (d : MemData)
    (md : Option MemData) (h : sys.long_term = [])
    (hlt : ∀ i, calculate_importance t d = Except.ok i → i < sys.importance_threshold) :
    (sys.add now t d md).long_term = [] := by
  rcases hi : calculate_importance t d with e | i <;>
    simp only [MemorySystem.add, hi]
  · exact h
  · rw [if_neg (not_le.mpr (hlt i hi))]
    exact h

lemma runAdds_long_empty (ops : List AddOp) :
    ∀ sys : MemorySystem, sys.long_term = [] →
      (∀ op ∈ ops, ∀ i, calculate_importance op.entry_type op.data = Except.ok i →
        i < sys.importance_threshold) →
      (runAdds sys ops).long_term = [] := by
  induction ops with
  | nil => intro sys h _; exact h
  | cons op rest ih =>
    intro sys h hops
    rw [runAdds_cons]
    apply ih
    · exact add_long_empty sys op.now op.entry_type op.data op.metadata h
        (hops op (List.mem_cons_self op rest))
    · intro op2 hop2 i hi
      rw [add_importance_threshold]
      exact hops op2 (List.mem_cons_of_mem op hop2) i hi

/-- Payload of an analysis entry whose importance computes to exactly 1.0
(0.5 + 0.2·1.5 + 0.2·1 = 1). -/
def maxImportanceData : MemData :=
  [("confidence", MemValue.num (3/2)), ("risk_score", MemValue.num 1)]

def maxImportanceEntry : MemoryEntry := ⟨5, "analysis", maxImportanceData, 1, none⟩

/-- A default-configured system after adding the single importance-1.0
entry. -/
def maxImportanceSys : MemorySystem :=
  (initSystem 1000 (1/2) 100).add 5 "analysis" maxImportanceData none

lemma maxImportanceData_importance :
    calculate_importance "analysis" maxImportanceData = Except.ok 1 := by
  norm_num [calculate_importance, alookup, pyFloat, min_def, maxImportanceData,
    (show "analysis" ≠ "trade" by decide), (show "analysis" ≠ "error" by decide),
    (show "confidence" ≠ "risk_score" by decide)]

lemma maxImportanceSys_buffers :
    maxImportanceSys.short_term = [maxImportanceEntry] ∧
    maxImportanceSys.long_term = [maxImportanceEntry] := by
  constructor <;>
    norm_num [maxImportanceSys, MemorySystem.add, maxImportanceData_importance,
      initSystem, dappend, maxImportanceEntry,
      (show "analysis" ≠ "trade" by decide)]

lemma runAdds_max_size (ops : List AddOp) :
    ∀ sys : MemorySystem, (runAdds sys ops).max_size = sys.max_size := by
  induction ops with
  | nil => intro sys; rfl
  | cons op rest ih => intro sys; rw [runAdds_cons, ih, add_max_size]

lemma dappend_full {α : Type} (q : List α) (e : α) (h : q.length = 100) :
    dappend 100 q e = q.tail ++ [e] := by
  cases q with
  | nil => simp at h
  | cons a as => simp [dappend, h]

/-- C6 amended: for every add sequence against a fresh system the
short-term buffer never exceeds 100 entries and the long-term buffer never
exceeds `max_size`; a full deque evicts exactly the oldest entry on
append; entries all below the importance threshold leave long-term empty;
and a single importance-1.0 entry appears in both buffers.  However the
claimed "short-term length equals short_capacity after short_capacity + k
low-importance inserts" is false under the default
`consolidation_interval = 100`: consolidation fires at the 100th insert
and replaces the buffer (see the counterexample). -/
theorem C6_memory_bounds :
    (∀ (ms : ℕ) (th : ℚ) (iv : ℕ) (ops : List AddOp),
      (runAdds (initSystem ms th iv) ops).short_term.length ≤ 100 ∧
      (runAdds (initSystem ms th iv) ops).long_term.length ≤ ms) ∧
    (∀ (q : List MemoryEntry) (e : MemoryEntry), q.length = 100 →
      dappend 100 q e = q.tail ++ [e]) ∧
    (∀ (ms : ℕ) (th : ℚ) (iv : ℕ) (ops : List AddOp),
      (∀ op ∈ ops, ∀ i, calculate_importance op.entry_type op.data = Except.ok i →
        i < th) →
      (runAdds (initSystem ms th iv) ops).long_term = []) ∧
    (maxImportanceEntry ∈ maxImportanceSys.short_term ∧
      maxImportanceEntry ∈ maxImportanceSys.long_term) := by
  refine ⟨?_, ?_, ?_, ?_⟩
  · intro ms th iv ops
    have h := runAdds_invariant ops (initSystem ms th iv)
      (by simp [initSystem]) (by simp [initSystem])
    rw [runAdds_max_size] at h
    exact h
  · exact fun q e h => dappend_full q e h
  · intro ms th iv ops hops
    exact runAdds_long_empty ops (initSystem ms th iv) rfl hops
  · have h := maxImportanceSys_buffers
    rw [h.1, h.2]
    exact ⟨List.mem_singleton.mpr rfl, List.mem_singleton.mpr rfl⟩

/-- C6 amended witness: the eviction equation applies to a concrete full
buffer, and a single below-threshold analysis add leaves long-term empty,
both via `C6_memory_bounds`. -/
theorem C6_memory_bounds_witness :
    dappend 100 (List.replicate 100 maxImportanceEntry) maxImportanceEntry =
      (List.replicate 100 maxImportanceEntry).tail ++ [maxImportanceEntry] ∧
    (runAdds (initSystem 1000 (1/2) 100)
      [⟨7, "analysis", [("confidence", MemValue.num (-1))], none⟩]).long_term = [] := by
  constructor
  · exact C6_memory_bounds.2.1 _ _ (by simp)
  · apply C6_memory_bounds.2.2.1
    intro op hop i hi
    rw [List.mem_singleton] at hop
    subst hop
    norm_num [calculate_importance, alookup, pyFloat, min_def,
      (show "analysis" ≠ "trade" by decide), (show "analysis" ≠ "error" by decide),
      (show "confidence" ≠ "risk_score" by decide)] at hi
    subst hi
    norm_num

/-! ### C6 counterexample: consolidation fires at the 100th insertion -/

/-- Payload shared by all 101 low-importance inserts: analysis entries for
token "a" with confidence −1 (importance 0.3 < threshold 0.5). -/
def c6Data : MemData :=
  [("confidence", MemValue.num (-1)), ("token", MemValue.str "a")]

def c6Entry (i : ℕ) : MemoryEntry := ⟨i, "analysis", c6Data, 3/10, none⟩

def c6OpsUpTo (n : ℕ) : List AddOp :=
  (List.range n).map (fun i => ⟨i, "analysis", c6Data, none⟩)

/-- The 101 = short_capacity + 1 insertions of the counterexample. -/
def c6Ops : List AddOp := c6OpsUpTo 101

lemma c6Data_importance :
    calculate_importance "analysis" c6Data = Except.ok (3/10) := by
  norm_num [calculate_importance, alookup, pyFloat, min_def, c6Data,
    (show "analysis" ≠ "trade" by decide), (show "analysis" ≠ "error" by decide),
    (show "confidence" ≠ "risk_score" by decide),
    (show "token" ≠ "risk_score" by decide)]

lemma dappend_lt {α : Type} (maxlen : ℕ) (q : List α) (e : α)
    (h : q.length < maxlen) : dappend maxlen q e = q ++ [e] := by
  simp only [dappend]
  rw [Nat.sub_eq_zero_of_le (by omega), List.drop_zero]

lemma runAdds_append (sys : MemorySystem) (l1 l2 : List AddOp) :
    runAdds sys (l1 ++ l2) = runAdds (runAdds sys l1) l2 := by
  simp [runAdds, List.foldl_append]

/-- One low-importance analysis add on a below-trigger buffer only appends
to short-term. -/
lemma c6_add (sys : MemorySystem) (i : ℕ)
    (hth : sys.importance_threshold = 1/2)
    (hiv : sys.consolidation_interval = 100)
    (hlen : sys.short_term.length + 1 < 100) :
    sys.add i "analysis" c6Data none =
      { sys with short_term := sys.short_term ++ [c6Entry i] } := by
  simp only [MemorySystem.add, c6Data_importance]
  rw [dappend_lt 100 sys.short_term _ (by omega)]
  rw [hth, if_neg (by norm_num : ¬ ((3:ℚ)/10 ≥ 1/2))]
  rw [if_neg (by decide : ¬ ("analysis" = "trade"))]
  rw [hiv]
  simp only [List.length_append, List.length_cons, List.length_nil]
  rw [if_neg (by omega : ¬ (100 ≤ sys.short_term.length + 1))]
  rfl

/-- The system state after `n ≤ 99` of the counterexample insertions. -/
def c6State (n : ℕ) : MemorySystem :=
  ⟨1000, 1/2, 100, (List.range n).map c6Entry, [], initMetrics⟩

lemma c6_run_upto : ∀ n, n ≤ 99 →
    runAdds (initSystem 1000 (1/2) 100) (c6OpsUpTo n) = c6State n := by
  intro n
  induction n with
  | zero => intro _; rfl
  | succ n ih =>
    intro hn
    have h1 : c6OpsUpTo (n + 1) = c6OpsUpTo n ++ [⟨n, "analysis", c6Data, none⟩] := by
      simp [c6OpsUpTo, List.range_succ]
    rw [h1, runAdds_append, ih (by omega)]
    have hstep := c6_add (c6State n) n rfl rfl
      (by simp only [c6State, List.length_map, List.length_range]; omega)
    simp only [runAdds, List.foldl_cons, List.foldl_nil]
    rw [hstep]
    simp [c6State, List.range_succ]

lemma foldl_addToGroups_same_key (k : String) :
    ∀ (l : List MemoryEntry) (acc : List MemoryEntry),
      (∀ m ∈ l, memKey m = k) →
      l.foldl addToGroups [(k, acc)] = [(k, acc ++ l)] := by
  intro l
  induction l with
  | nil => intro acc _; simp
  | cons x xs ih =>
    intro acc hk
    have hx : memKey x = k := hk x (List.mem_cons_self x xs)
    simp only [List.foldl_cons]
    rw [show addToGroups [(k, acc)] x = [(k, acc ++ [x])] by simp [addToGroups, hx]]
    rw [ih (acc ++ [x]) (fun m hm => hk m (List.mem_cons_of_mem x hm))]
    simp

lemma groupMemories_same_key (l : List MemoryEntry) (k : String)
    (h : ∀ m ∈ l, memKey m = k) (hne : l ≠ []) :
    groupMemories l = [(k, l)] := by
  cases l with
  | nil => exact absurd rfl hne
  | cons x xs =>
    have hx : memKey x = k := h x (List.mem_cons_self x xs)
    simp only [groupMemories, List.foldl_cons]
    rw [show addToGroups [] x = [(memKey x, [x])] from rfl, hx]
    rw [foldl_addToGroups_same_key k xs [x] (fun m hm => h m (List.mem_cons_of_mem x hm))]
    simp

/-- Intermediate merged dict after processing `j` of the identical
counterexample payloads. -/
def c6Merged (j : ℕ) : List (String × Merged) :=
  [("confidence", Merged.nums (List.replicate j (-1))), ("token", Merged.raw "a")]

lemma c6_mergeKV_entry (j : ℕ) :
    c6Data.foldlM mergeKV (c6Merged j) = Except.ok (c6Merged (j + 1)) := by
  simp [c6Data, c6Merged, mergeKV, alookup, aset, List.foldlM,
    (show "confidence" ≠ "token" by decide), List.replicate_succ']
  rfl

lemma c6_mergeKV_first :
    c6Data.foldlM mergeKV ([] : List (String × Merged)) = Except.ok (c6Merged 1) := by
  simp [c6Data, c6Merged, mergeKV, alookup, aset, List.foldlM,
    (show "confidence" ≠ "token" by decide)]
  rfl

lemma c6_merge_fold :
    ∀ (l : List MemoryEntry), (∀ m ∈ l, m.data = c6Data) → ∀ j : ℕ,
      l.foldlM (fun acc m => m.data.foldlM mergeKV acc) (c6Merged j) =
        Except.ok (c6Merged (j + l.length)) := by
  intro l
  induction l with
  | nil => intro _ j; rfl
  | cons x xs ih =>
    intro h j
    have hx : x.data = c6Data := h x (List.mem_cons_self x xs)
    simp only [List.foldlM_cons, hx, c6_mergeKV_entry]
    rw [show (Except.ok (c6Merged (j + 1)) >>= fun b =>
      xs.foldlM (fun acc m => m.data.foldlM mergeKV acc) b) =
      xs.foldlM (fun acc m => m.data.foldlM mergeKV acc) (c6Merged (j + 1)) from rfl]
    rw [ih (fun m hm => h m (List.mem_cons_of_mem x hm)) (j + 1)]
    rw [show j + 1 + xs.length = j + (x :: xs).length by simp; omega]

lemma c6_merge (l : List MemoryEntry) (h : ∀ m ∈ l, m.data = c6Data) (hne : l ≠ []) :
    merge_memory_data l = Except.ok c6Data := by
  cases l with
  | nil => exact absurd rfl hne
  | cons x xs =>
    have hx : x.data = c6Data := h x (List.mem_cons_self x xs)
    have hfold : (x :: xs).foldlM (fun acc m => m.data.foldlM mergeKV acc)
        ([] : List (String × Merged)) = Except.ok (c6Merged (1 + xs.length)) := by
      simp only [List.foldlM_cons, hx, c6_mergeKV_first]
      rw [show (Except.ok (c6Merged 1) >>= fun b =>
        xs.foldlM (fun acc m => m.data.foldlM mergeKV acc) b) =
        xs.foldlM (fun acc m => m.data.foldlM mergeKV acc) (c6Merged 1) from rfl]
      exact c6_merge_fold xs (fun m hm => h m (List.mem_cons_of_mem x hm)) 1
    simp only [merge_memory_data, hfold]
    have hrep : List.replicate (1 + xs.length) (-1 : ℚ) =
        (-1 : ℚ) :: List.replicate xs.length (-1) := by
      rw [show 1 + xs.length = xs.length + 1 by omega, List.replicate_succ']
      rw [← List.replicate_succ']
      simp [List.replicate_succ]
    simp only [c6Merged, hrep, List.map_cons, List.map_nil, finalizeMerged]
    have hsum : ((-1 : ℚ) :: List.replicate xs.length (-1)).sum /
        ((((-1 : ℚ) :: List.replicate xs.length (-1)).length : ℕ) : ℚ) = -1 := by
      simp [List.sum_replicate, nsmul_eq_mul]
      have hpos : (0:ℚ) < (xs.length : ℚ) + 1 := by positivity
      field_simp
    rw [hsum]
    rfl

lemma foldl_max_const (a : ℚ) :
    ∀ (l : List MemoryEntry) (acc : ℚ),
      (∀ m ∈ l, m.importance = a) → acc = a →
      l.foldl (fun acc x => max acc x.importance) acc = a := by
  intro l
  induction l with
  | nil => intro acc _ hacc; exact hacc
  | cons x xs ih =>
    intro acc hmem hacc
    simp only [List.foldl_cons]
    refine ih _ (fun m hm => hmem m (List.mem_cons_of_mem x hm)) ?_
    rw [hacc, hmem x (List.mem_cons_self x xs), max_self]

lemma c6_maxImportance (l : List MemoryEntry) (h : ∀ m ∈ l, m.importance = 3/10)
    (hne : l ≠ []) : maxImportance l = 3/10 := by
  cases l with
  | nil => exact absurd rfl hne
  | cons x xs =>
    simp only [maxImportance]
    exact foldl_max_const (3/10) xs x.importance
      (fun m hm => h m (List.mem_cons_of_mem x hm))
      (h x (List.mem_cons_self x xs))

lemma c6_consolidate (l : List MemoryEntry) (now : ℕ)
    (hdata : ∀ m ∈ l, m.data = c6Data)
    (himp : ∀ m ∈ l, m.importance = 3/10)
    (hkey : ∀ m ∈ l, memKey m = "analysis_a")
    (htype : headType l = "analysis")
    (hlen : 1 < l.length) :
    consolidate now l = [⟨now, "analysis", c6Data, 3/10, none⟩] := by
  have hne : l ≠ [] := by
    intro hh
    subst hh
    simp at hlen
  have hg := groupMemories_same_key l "analysis_a" hkey hne
  have hm := c6_merge l hdata hne
  have hmax := c6_maxImportance l himp hne
  simp only [consolidate, hg, consolidateGroups]
  rw [if_pos hlen]
  simp only [hm]
  rw [htype, hmax]

/-- The single entry that survives the 100th insertion: the merge of all
100 identical singleton-key entries (their data averages back to the same
payload, importance is the group maximum 3/10, timestamp is the
consolidation time 99). -/
def c6MergedEntry : MemoryEntry := ⟨99, "analysis", c6Data, 3/10, none⟩

/-- A low-importance analysis add on a buffer that reaches the
consolidation interval: the short-term buffer is replaced by the
consolidation of the appended buffer. -/
lemma c6_add_trigger (sys : MemorySystem) (i : ℕ)
    (hth : sys.importance_threshold = 1/2)
    (hiv : sys.consolidation_interval = 100)
    (hlen : sys.short_term.length = 99) :
    sys.add i "analysis" c6Data none =
      { sys with short_term := consolidate i (sys.short_term ++ [c6Entry i]) } := by
  simp only [MemorySystem.add, c6Data_importance]
  rw [dappend_lt 100 sys.short_term _ (by omega)]
  rw [hth, if_neg (by norm_num : ¬ ((3:ℚ)/10 ≥ 1/2))]
  rw [if_neg (by decide : ¬ ("analysis" = "trade"))]
  rw [hiv]
  split_ifs <;> first
    | rfl
    | contradiction
    | simp_all [hlen]

lemma c6_run100 :
    runAdds (initSystem 1000 (1/2) 100) (c6OpsUpTo 100) =
      ⟨1000, 1/2, 100, [c6MergedEntry], [], initMetrics⟩ := by
  have h1 : c6OpsUpTo 100 = c6OpsUpTo 99 ++ [⟨99, "analysis", c6Data, none⟩] := by
    simp [c6OpsUpTo, List.range_succ]
  rw [h1, runAdds_append, c6_run_upto 99 (by omega)]
  simp only [runAdds, List.foldl_cons, List.foldl_nil]
  rw [c6_add_trigger (c6State 99) 99 rfl rfl (by simp [c6State])]
  have hshort : (c6State 99).short_term ++ [c6Entry 99] =
      (List.range 100).map c6Entry := by
    simp [c6State, List.range_succ]
  rw [hshort]
  rw [c6_consolidate ((List.range 100).map c6Entry) 99
    (by intro m hm; obtain ⟨i, -, rfl⟩ := List.mem_map.mp hm; rfl)
    (by intro m hm; obtain ⟨i, -, rfl⟩ := List.mem_map.mp hm; rfl)
    (by intro m hm; obtain ⟨i, -, rfl⟩ := List.mem_map.mp hm; rfl)
    rfl
    (by simp)]
  rfl

/-- C6 counterexample: 101 = short_capacity + 1 insertions, all with
importance 0.3 < threshold 0.5, against a default-configured system.  At
the 100th insertion the short-term length reaches
consolidation_interval = 100 and consolidation replaces the buffer with
the single merged entry, so after all 101 insertions the short-term length
is 2, not short_capacity = 100 as the claim states (long-term is empty as
claimed). -/
theorem C6_short_capacity_counterexample :
    (runAdds (initSystem 1000 (1/2) 100) c6Ops).short_term.length = 2 ∧
    (runAdds (initSystem 1000 (1/2) 100) c6Ops).short_term.length ≠ 100 ∧
    (runAdds (initSystem 1000 (1/2) 100) c6Ops).long_term = [] ∧
    c6Ops.length = 100 + 1 := by
  have h1 : c6Ops = c6OpsUpTo 100 ++ [⟨100, "analysis", c6Data, none⟩] := by
    simp [c6Ops, c6OpsUpTo, List.range_succ]
  have h2 : runAdds (initSystem 1000 (1/2) 100) c6Ops =
      ⟨1000, 1/2, 100, [c6MergedEntry, c6Entry 100], [], initMetrics⟩ := by
    rw [h1, runAdds_append, c6_run100]
    simp only [runAdds, List.foldl_cons, List.foldl_nil]
    rw [c6_add ⟨1000, 1/2, 100, [c6MergedEntry], [], initMetrics⟩ 100 rfl rfl (by simp)]
    rfl
  rw [h2]
  exact ⟨rfl, by decide, rfl, by simp [c6Ops, c6OpsUpTo]⟩
